import Mathlib

/-!  Verification of the time-series missing-data checker
(`src/missing_data_tool.py`).

Shallow-embedding conventions:
* timestamps are integers (a count of fixed time units, e.g. minutes,
  since an epoch); the user-chosen interval is an integer in the same
  unit, so `pd.Timedelta(interval)` is just that integer;
* pandas `NaN` / `NaT` cells are `Option` values (`none` = missing);
* numeric cell values are rationals;
* a dataframe is an explicit list of rows together with the names of its
  numeric and its non-numeric columns.
-/

namespace MissingData

/-- A row of the working dataframe after timestamp parsing: a timestamp,
the numeric cells (in the order of `Frame.numCols`) and the non-numeric
cells (in the order of `Frame.strCols`).  `none` models a NaN cell. -/
structure Row where
  ts : Int
  nums : List (Option Rat)
  strs : List (Option String)
deriving Repr, DecidableEq

/-- The working dataframe: named numeric columns, named non-numeric
columns, and the rows. -/
structure Frame where
  numCols : List String
  strCols : List String
  rows : List Row
deriving Repr, DecidableEq

/-- A raw row before timestamp parsing: `ts` is the result of
`pd.to_datetime(cell, errors="coerce")`, i.e. `none` when the cell does
not parse. -/
structure RawRow where
  ts : Option Int
  nums : List (Option Rat)
  strs : List (Option String)
deriving Repr, DecidableEq

/-- The uploaded table with the timestamp column already put through
`pd.to_datetime(..., errors="coerce")`. -/
structure RawFrame where
  numCols : List String
  strCols : List String
  rows : List RawRow
deriving Repr, DecidableEq

/-- Timestamp Normalizer (`df.dropna(subset=[timestamp_col])` followed by
`df.sort_values(timestamp_col)`): drop the rows whose timestamp failed to
parse, then stable-sort ascending by timestamp. -/
def normalizeRows (rows : List RawRow) : List Row :=
  (rows.filterMap (fun r => r.ts.map (fun t => Row.mk t r.nums r.strs))).insertionSort
    (fun a b => a.ts ≤ b.ts)

/-- `df.duplicated(subset=[timestamp_col]).sum()`: the number of rows that
repeat an earlier row's timestamp, i.e. row count minus the number of
distinct timestamps. -/
def duplicate_count (rows : List Row) : Nat :=
  rows.length - (rows.map Row.ts).dedup.length

/-- The duplicate-handling policies offered by the selectbox. -/
inductive Policy
  | keepFirst | keepLast | mean | median | min | max
deriving Repr, DecidableEq

/-- First non-`none` entry of a list of optional values (what pandas
`GroupBy.first` computes per column within a group). -/
def firstSome {α : Type} : List (Option α) → Option α
  | [] => none
  | a :: l => match a with
    | some x => some x
    | none => firstSome l

/-- Last non-`none` entry (pandas `GroupBy.last` per column). -/
def lastSome {α : Type} (l : List (Option α)) : Option α :=
  firstSome l.reverse

/-- The `i`-th numeric column of a group of rows, as stored (NaN = `none`). -/
def colVals (grp : List Row) (i : Nat) : List (Option Rat) :=
  grp.map (fun r => r.nums.getD i none)

/-- The `i`-th non-numeric column of a group of rows. -/
def strVals (grp : List Row) (i : Nat) : List (Option String) :=
  grp.map (fun r => r.strs.getD i none)

/-- pandas `mean` of a column within a group: the mean of the non-null
values, NaN when there are none. -/
def meanOpt (l : List (Option Rat)) : Option Rat :=
  match l.filterMap id with
  | [] => none
  | v :: vs => some ((v :: vs).sum / ((v :: vs).length : Rat))

/-- pandas `median` of a column within a group: sort the non-null values;
odd count gives the middle value, even count the average of the two middle
values, NaN when there are none. -/
def medianOpt (l : List (Option Rat)) : Option Rat :=
  let vs := (l.filterMap id).insertionSort (· ≤ ·)
  if vs.length = 0 then none
  else if vs.length % 2 = 1 then some (vs.getD (vs.length / 2) 0)
  else some ((vs.getD (vs.length / 2 - 1) 0 + vs.getD (vs.length / 2) 0) / 2)

/-- pandas `min` of a column within a group (non-null values only). -/
def minOpt (l : List (Option Rat)) : Option Rat :=
  match l.filterMap id with
  | [] => none
  | v :: vs => some (vs.foldl Min.min v)

/-- pandas `max` of a column within a group (non-null values only). -/
def maxOpt (l : List (Option Rat)) : Option Rat :=
  match l.filterMap id with
  | [] => none
  | v :: vs => some (vs.foldl Max.max v)

/-- The statistic a numeric-only policy applies to one column of a group
(`none` for the keep policies, which never reach it). -/
def statFn : Policy → List (Option Rat) → Option Rat
  | .mean, l => meanOpt l
  | .median, l => medianOpt l
  | .min, l => minOpt l
  | .max, l => maxOpt l
  | _, _ => none

/-- The sorted distinct timestamps: pandas `groupby(timestamp_col)` group
keys, which pandas sorts ascending. -/
def groupKeys (rows : List Row) : List Int :=
  ((rows.map Row.ts).dedup).insertionSort (· ≤ ·)

/-- The rows of one `groupby(timestamp_col)` group, in row order. -/
def groupOf (rows : List Row) (k : Int) : List Row :=
  rows.filter (fun r => decide (r.ts = k))

/-- One output row of the groupby aggregation for key `k`:
`first`/`last` act per column (first/last non-null) on numeric and
non-numeric columns alike; `mean`/`median`/`min`/`max` act on the numeric
columns only (`numeric_only=True`) and the non-numeric cells disappear. -/
def aggRow (p : Policy) (w ws : Nat) (grp : List Row) (k : Int) : Row :=
  match p with
  | .keepFirst => ⟨k, (List.range w).map (fun i => firstSome (colVals grp i)),
      (List.range ws).map (fun i => firstSome (strVals grp i))⟩
  | .keepLast => ⟨k, (List.range w).map (fun i => lastSome (colVals grp i)),
      (List.range ws).map (fun i => lastSome (strVals grp i))⟩
  | .mean => ⟨k, (List.range w).map (fun i => meanOpt (colVals grp i)), []⟩
  | .median => ⟨k, (List.range w).map (fun i => medianOpt (colVals grp i)), []⟩
  | .min => ⟨k, (List.range w).map (fun i => minOpt (colVals grp i)), []⟩
  | .max => ⟨k, (List.range w).map (fun i => maxOpt (colVals grp i)), []⟩

/-- `df.groupby(timestamp_col).<agg>().reset_index()`: one row per
distinct timestamp, in ascending key order.  With `numeric_only=True`
aggregations the non-numeric columns are dropped from the frame. -/
def groupbyAgg (p : Policy) (f : Frame) : Frame :=
  { numCols := f.numCols
    strCols := match p with
      | .keepFirst | .keepLast => f.strCols
      | _ => []
    rows := (groupKeys f.rows).map
      (fun k => aggRow p f.numCols.length f.strCols.length (groupOf f.rows k) k) }

/-- Duplicate Resolver: the aggregation branch only runs when
`duplicate_count > 0` (the selectbox and the `groupby` are inside
`if duplicate_count > 0:`); otherwise the frame passes through. -/
def resolveDuplicates (p : Policy) (f : Frame) : Frame :=
  if 0 < duplicate_count f.rows then groupbyAgg p f else f

/-- `df[timestamp_col].min()`: `NaT` (`none`) on an empty column. -/
def seriesMin (l : List Int) : Option Int :=
  match l with
  | [] => none
  | x :: xs => some (xs.foldl Min.min x)

/-- `df[timestamp_col].max()`: `NaT` (`none`) on an empty column. -/
def seriesMax (l : List Int) : Option Int :=
  match l with
  | [] => none
  | x :: xs => some (xs.foldl Max.max x)

/-- `pd.date_range(start, end, freq)` for a positive frequency and
concrete bounds: all points `start + k * step ≤ end`, ascending. -/
def date_range (start stop step : Int) : List Int :=
  if 0 < step ∧ start ≤ stop then
    (List.range ((stop - start).toNat / step.toNat + 1)).map
      (fun k : Nat => start + (k : Int) * step)
  else []

/-- `pd.date_range` as called on the series min/max: pandas raises
`ValueError` when either bound is `NaT`. -/
def pd_date_range (start stop : Option Int) (step : Int) :
    Except String (List Int) :=
  match start, stop with
  | some lo, some hi => .ok (date_range lo hi step)
  | _, _ => .error "ValueError: Neither start nor end can be NaT"

/-- `full_range.difference(df[timestamp_col])`: the grid members absent
from the resolved series, in grid (ascending) order. -/
def indexDifference (grid present : List Int) : List Int :=
  grid.filter (fun t => decide (t ∉ present))

/-- The four availability metrics shown in the summary row. -/
structure Summary where
  actual_points : Nat
  expected_points : Nat
  missing_points : Int
  availability_pct : Rat
deriving Repr, DecidableEq

/-- Python `round` to an integer: round half to even. -/
def pyRoundInt (x : Rat) : Int :=
  let f := ⌊x⌋
  if x - f < 1 / 2 then f
  else if (1 : Rat) / 2 < x - f then f + 1
  else if 2 ∣ f then f else f + 1

/-- Python `round(x, 2)`. -/
def pyRound2 (x : Rat) : Rat :=
  (pyRoundInt (x * 100) : Rat) / 100

/-- The summary block: `nunique` of the resolved timestamps, grid length,
their difference, and the rounded availability percentage with the
division-by-zero guard. -/
def summaryOf (ts : List Int) (grid : List Int) : Summary :=
  let a := ts.dedup.length
  let e := grid.length
  { actual_points := a
    expected_points := e
    missing_points := (e : Int) - (a : Int)
    availability_pct :=
      if 0 < e then pyRound2 (((a : Rat) / (e : Rat)) * 100) else 0 }

/-- One row of the gap report. -/
structure Gap where
  Start : Int
  End : Int
  Count : Nat
deriving Repr, DecidableEq

/-- The `Gap_Start` labelling after `ffill`: walking the tail of the
missing sequence, an entry whose step from its predecessor is not exactly
one interval starts a new gap (gets its own timestamp as label), any other
entry inherits the forward-filled previous label. -/
def gapStartGo (interval prev label : Int) : List Int → List (Int × Int)
  | [] => []
  | t :: ts =>
    (if t - prev = interval then label else t, t) ::
      gapStartGo interval t (if t - prev = interval then label else t) ts

/-- Each missing timestamp paired with its `Gap_Start` label.  The first
entry's `diff()` is `NaT`, which compares unequal to the interval, so the
first entry always starts a gap. -/
def labelledMissing (interval : Int) : List Int → List (Int × Int)
  | [] => []
  | m :: ms => (m, m) :: gapStartGo interval m m ms

/-- pandas `min` aggregation over a nonempty integer group. -/
def aggMinI (l : List Int) : Int :=
  match l with
  | [] => 0
  | x :: xs => xs.foldl Min.min x

/-- pandas `max` aggregation over a nonempty integer group. -/
def aggMaxI (l : List Int) : Int :=
  match l with
  | [] => 0
  | x :: xs => xs.foldl Max.max x

/-- `missing_df.groupby("Gap_Start").agg(Start=min, End=max, Count=count)`:
one gap per distinct label, in ascending label order. -/
def groupGaps (lab : List (Int × Int)) : List Gap :=
  (((lab.map Prod.fst).dedup).insertionSort (· ≤ ·)).map (fun k =>
    let grp := (lab.filter (fun p => decide (p.1 = k))).map Prod.snd
    { Start := aggMinI grp, End := aggMaxI grp, Count := grp.length })

/-- The Gap Detector & Grouper of the source: label each missing
timestamp with its forward-filled gap start and aggregate per label. -/
def gapsOf (interval : Int) (missing : List Int) : List Gap :=
  groupGaps (labelledMissing interval missing)

/-- The complete result of one analysis pass. -/
structure Analysis where
  resolved : Frame
  full_range : List Int
  missing : List Int
  summary : Summary
  gaps : List Gap
deriving Repr, DecidableEq

/-- One full pass of the core pipeline: normalize, resolve duplicates,
build the grid from the resolved min/max, diff, summarize, group gaps. -/
def analyze (raw : RawFrame) (p : Policy) (interval : Int) :
    Except String Analysis :=
  let normalized : Frame := ⟨raw.numCols, raw.strCols, normalizeRows raw.rows⟩
  let resolved := resolveDuplicates p normalized
  let ts := resolved.rows.map Row.ts
  match pd_date_range (seriesMin ts) (seriesMax ts) interval with
  | .error e => .error e
  | .ok full_range =>
    .ok { resolved := resolved
          full_range := full_range
          missing := indexDifference full_range ts
          summary := summaryOf ts full_range
          gaps := gapsOf interval (indexDifference full_range ts) }

/-- Modelled from the spec: the linear scan the spec describes for gap
grouping — iterate the missing timestamps in order and start a new gap
exactly when the step from the previous missing timestamp is not one
interval; each gap records its first timestamp, its last timestamp and
its member count. -/
def specGapsGo (interval s prev : Int) (count : Nat) : List Int → List Gap
  | [] => [⟨s, prev, count⟩]
  | t :: ts =>
    if t - prev = interval then specGapsGo interval s t (count + 1) ts
    else ⟨s, prev, count⟩ :: specGapsGo interval t t 1 ts

/-- Modelled from the spec: gap grouping as a single linear scan. -/
def specGaps (interval : Int) : List Int → List Gap
  | [] => []
  | m :: ms => specGapsGo interval m m 1 ms

/-- Proof device: the decomposition of the missing sequence into its
maximal runs of interval-spaced timestamps.  `cur` accumulates the current
run in reverse. -/
def runsGo (interval prev : Int) (cur : List Int) : List Int → List (List Int)
  | [] => [cur.reverse]
  | t :: ts =>
    if t - prev = interval then runsGo interval t (t :: cur) ts
    else cur.reverse :: runsGo interval t [t] ts

/-- Proof device: the maximal interval-spaced runs of a list. -/
def runs (interval : Int) : List Int → List (List Int)
  | [] => []
  | m :: ms => runsGo interval m [m] ms

/-- Proof device: the labelled pairs contributed by one complete run — the
run's head is every member's gap-start label. -/
def chunkPairs (c : List Int) : List (Int × Int) :=
  c.map (fun t => (c.head?.getD 0, t))

/-! ## Helper lemmas -/

theorem foldl_min_le (xs : List Int) : ∀ x : Int, xs.foldl Min.min x ≤ x := by
  induction xs with
  | nil => intro x; exact le_refl x
  | cons y ys ih => intro x; exact le_trans (ih (Min.min x y)) (min_le_left x y)

theorem le_foldl_max (xs : List Int) : ∀ x : Int, x ≤ xs.foldl Max.max x := by
  induction xs with
  | nil => intro x; exact le_refl x
  | cons y ys ih => intro x; exact le_trans (le_max_left x y) (ih (Max.max x y))

theorem toNat_ediv_eq {a b : Int} (ha : 0 ≤ a) (hb : 0 ≤ b) :
    (a / b).toNat = a.toNat / b.toNat := by
  rcases Int.eq_ofNat_of_zero_le ha with ⟨m, rfl⟩
  rcases Int.eq_ofNat_of_zero_le hb with ⟨n, rfl⟩
  rfl

instance : IsTotal Row (fun a b => a.ts ≤ b.ts) :=
  ⟨fun a b => le_total a.ts b.ts⟩

instance : IsTrans Row (fun a b => a.ts ≤ b.ts) :=
  ⟨fun _ _ _ => le_trans⟩

theorem aggRow_ts (p : Policy) (w ws : Nat) (grp : List Row) (k : Int) :
    (aggRow p w ws grp k).ts = k := by
  cases p <;> rfl

theorem groupbyAgg_map_ts (p : Policy) (f : Frame) :
    (groupbyAgg p f).rows.map Row.ts = groupKeys f.rows := by
  show List.map Row.ts (List.map _ (groupKeys f.rows)) = _
  rw [List.map_map]
  have hid : (Row.ts ∘ fun k =>
      aggRow p f.numCols.length f.strCols.length (groupOf f.rows k) k) = id :=
    funext fun k => aggRow_ts p _ _ _ k
  rw [hid, List.map_id]

theorem groupKeys_nodup (rows : List Row) : (groupKeys rows).Nodup :=
  ((List.perm_insertionSort _ _).nodup_iff).mpr (List.nodup_dedup _)

theorem groupKeys_sorted (rows : List Row) :
    List.Sorted (· ≤ ·) (groupKeys rows) :=
  List.sorted_insertionSort _ _

theorem groupKeys_sorted_lt (rows : List Row) :
    List.Sorted (· < ·) (groupKeys rows) :=
  (groupKeys_sorted rows).lt_of_le (groupKeys_nodup rows)

theorem dup_zero_nodup {rows : List Row} (h : duplicate_count rows = 0) :
    (rows.map Row.ts).Nodup := by
  rw [duplicate_count] at h
  have hlen : (rows.map Row.ts).length = rows.length := List.length_map _ _
  have hle := (List.dedup_sublist (rows.map Row.ts)).length_le
  have heq : (rows.map Row.ts).dedup.length = (rows.map Row.ts).length := by omega
  exact List.dedup_eq_self.mp ((List.dedup_sublist _).eq_of_length heq)

theorem duplicate_count_groupbyAgg (p : Policy) (f : Frame) :
    duplicate_count (groupbyAgg p f).rows = 0 := by
  have h1 : (groupbyAgg p f).rows.length = (groupKeys f.rows).length := by
    simp [groupbyAgg]
  have h2 : ((groupbyAgg p f).rows.map Row.ts).dedup = groupKeys f.rows := by
    rw [groupbyAgg_map_ts]
    exact List.dedup_eq_self.mpr (groupKeys_nodup _)
  rw [duplicate_count, h2, h1, Nat.sub_self]

/-! ### Gap-grouping lemmas -/

theorem headD_mem (c : List Int) (h : c ≠ []) : c.head?.getD 0 ∈ c := by
  cases c with
  | nil => exact absurd rfl h
  | cons x xs => simp

theorem specGapsGo_eq_runsGo (interval : Int) :
    ∀ (ts cur : List Int) (s prev : Int), cur ≠ [] →
      cur.getLast? = some s → cur.head? = some prev →
      specGapsGo interval s prev cur.length ts
        = (runsGo interval prev cur ts).map
            (fun c => Gap.mk (c.head?.getD 0) (c.getLast?.getD 0) c.length) := by
  intro ts
  induction ts with
  | nil =>
    intro cur s prev hne hlast hhead
    simp [specGapsGo, runsGo, List.head?_reverse, List.getLast?_reverse, hlast, hhead]
  | cons t ts ih =>
    intro cur s prev hne hlast hhead
    simp only [specGapsGo, runsGo]
    by_cases hd : t - prev = interval
    · rw [if_pos hd, if_pos hd]
      have h1 : (t :: cur).getLast? = some s := by
        cases cur with
        | nil => exact absurd rfl hne
        | cons c cs => rw [List.getLast?_cons_cons]; exact hlast
      have h2 := ih (t :: cur) s t (by simp) h1 rfl
      simpa using h2
    · rw [if_neg hd, if_neg hd]
      have h2 := ih [t] t t (by simp) rfl rfl
      rw [List.map_cons]
      refine congrArg₂ List.cons ?_ ?_
      · simp [List.head?_reverse, List.getLast?_reverse, hlast, hhead]
      · simpa using h2

theorem specGaps_eq_runs (interval : Int) (ms : List Int) :
    specGaps interval ms
      = (runs interval ms).map
          (fun c => Gap.mk (c.head?.getD 0) (c.getLast?.getD 0) c.length) := by
  cases ms with
  | nil => rfl
  | cons m ms => exact specGapsGo_eq_runsGo interval ms [m] m m (by simp) rfl rfl

theorem gapStartGo_eq_runsGo (interval : Int) :
    ∀ (ts cur : List Int) (label prev : Int), cur ≠ [] →
      cur.getLast? = some label → cur.head? = some prev →
      (runsGo interval prev cur ts).flatMap chunkPairs
        = cur.reverse.map (fun t => (label, t)) ++ gapStartGo interval prev label ts := by
  intro ts
  induction ts with
  | nil =>
    intro cur label prev hne hlast hhead
    simp [runsGo, gapStartGo, chunkPairs, List.head?_reverse, hlast]
  | cons t ts ih =>
    intro cur label prev hne hlast hhead
    simp only [runsGo, gapStartGo]
    by_cases hd : t - prev = interval
    · rw [if_pos hd, if_pos hd]
      have h1 : (t :: cur).getLast? = some label := by
        cases cur with
        | nil => exact absurd rfl hne
        | cons c cs => rw [List.getLast?_cons_cons]; exact hlast
      rw [ih (t :: cur) label t (by simp) h1 rfl]
      simp
    · rw [if_neg hd, if_neg hd]
      rw [List.flatMap_cons, ih [t] t t (by simp) rfl rfl]
      simp [chunkPairs, List.head?_reverse, hlast]

theorem labelledMissing_eq_runs (interval : Int) (ms : List Int) :
    labelledMissing interval ms = (runs interval ms).flatMap chunkPairs := by
  cases ms with
  | nil => rfl
  | cons m ms =>
    rw [labelledMissing, runs, gapStartGo_eq_runsGo interval ms [m] m m (by simp) rfl rfl]
    rfl

theorem runsGo_flatten (interval : Int) :
    ∀ (ts cur : List Int) (prev : Int),
      (runsGo interval prev cur ts).flatten = cur.reverse ++ ts := by
  intro ts
  induction ts with
  | nil => intro cur prev; simp [runsGo]
  | cons t ts ih =>
    intro cur prev
    simp only [runsGo]
    by_cases hd : t - prev = interval
    · rw [if_pos hd, ih]
      simp
    · rw [if_neg hd]
      simp [ih]

theorem runs_flatten (interval : Int) (ms : List Int) :
    (runs interval ms).flatten = ms := by
  cases ms with
  | nil => rfl
  | cons m ms => rw [runs, runsGo_flatten]; rfl

theorem runsGo_ne_nil (interval : Int) :
    ∀ (ts cur : List Int) (prev : Int), cur ≠ [] →
      ∀ c ∈ runsGo interval prev cur ts, c ≠ [] := by
  intro ts
  induction ts with
  | nil =>
    intro cur prev hne c hc
    simp only [runsGo, List.mem_singleton] at hc
    subst hc
    simpa using hne
  | cons t ts ih =>
    intro cur prev hne c hc
    simp only [runsGo] at hc
    by_cases hd : t - prev = interval
    · rw [if_pos hd] at hc
      exact ih (t :: cur) t (by simp) c hc
    · rw [if_neg hd] at hc
      rcases List.mem_cons.mp hc with rfl | hc
      · simpa using hne
      · exact ih [t] t (by simp) c hc

theorem runs_ne_nil (interval : Int) (ms : List Int) :
    ∀ c ∈ runs interval ms, c ≠ [] := by
  cases ms with
  | nil => intro c hc; cases hc
  | cons m ms => exact runsGo_ne_nil interval ms [m] m (by simp)

theorem foldl_min_of_le (xs : List Int) :
    ∀ x : Int, (∀ y ∈ xs, x ≤ y) → xs.foldl Min.min x = x := by
  induction xs with
  | nil => intro x _; rfl
  | cons y ys ih =>
    intro x h
    rw [List.foldl_cons, min_eq_left (h y (by simp))]
    exact ih x (fun z hz => h z (by simp [hz]))

theorem foldl_max_last (xs : List Int) :
    ∀ x : Int, List.Chain' (· ≤ ·) (x :: xs) →
      xs.foldl Max.max x = ((x :: xs).getLast?).getD 0 := by
  induction xs with
  | nil => intro x _; rfl
  | cons y ys ih =>
    intro x h
    obtain ⟨hxy, h'⟩ := List.chain'_cons.mp h
    rw [List.foldl_cons, max_eq_right hxy, List.getLast?_cons_cons]
    exact ih y h'

theorem aggMinI_of_sorted (c : List Int) (hne : c ≠ [])
    (hs : List.Pairwise (· < ·) c) : aggMinI c = c.head?.getD 0 := by
  cases c with
  | nil => exact absurd rfl hne
  | cons x xs =>
    exact foldl_min_of_le xs x (fun y hy => le_of_lt ((List.pairwise_cons.mp hs).1 y hy))

theorem aggMaxI_of_sorted (c : List Int) (hne : c ≠ [])
    (hs : List.Chain' (· ≤ ·) c) : aggMaxI c = c.getLast?.getD 0 := by
  cases c with
  | nil => exact absurd rfl hne
  | cons x xs => exact foldl_max_last xs x hs

theorem chunkPairs_filter_self (c : List Int) :
    (chunkPairs c).filter (fun p => decide (p.1 = c.head?.getD 0)) = chunkPairs c := by
  rw [List.filter_eq_self]
  intro p hp
  rcases List.mem_map.mp hp with ⟨t, _, rfl⟩
  simp

theorem chunkPairs_filter_ne (c : List Int) (k : Int) (h : c.head?.getD 0 ≠ k) :
    (chunkPairs c).filter (fun p => decide (p.1 = k)) = [] := by
  rw [List.filter_eq_nil_iff]
  intro p hp
  rcases List.mem_map.mp hp with ⟨t, _, rfl⟩
  simp [h]

theorem chunkPairs_map_snd (c : List Int) : (chunkPairs c).map Prod.snd = c := by
  rw [chunkPairs, List.map_map]
  simp

theorem flatMap_chunkPairs_filter :
    ∀ (L : List (List Int)), (∀ c ∈ L, c ≠ []) →
      L.Pairwise (fun c d => ∀ x ∈ c, ∀ y ∈ d, x < y) →
      ∀ c ∈ L,
        ((L.flatMap chunkPairs).filter
          (fun p => decide (p.1 = c.head?.getD 0))).map Prod.snd = c := by
  intro L
  induction L with
  | nil => intro _ _ c hc; cases hc
  | cons c₀ L ih =>
    intro hne hpw c hc
    rw [List.flatMap_cons, List.filter_append, List.map_append]
    have hc₀ : c₀ ≠ [] := hne c₀ (by simp)
    obtain ⟨hcross, hpw'⟩ := List.pairwise_cons.mp hpw
    rcases List.mem_cons.mp hc with rfl | hc
    · rw [chunkPairs_filter_self, chunkPairs_map_snd]
      have hrest : (L.flatMap chunkPairs).filter
          (fun p => decide (p.1 = c.head?.getD 0)) = [] := by
        rw [List.filter_eq_nil_iff]
        intro p hp
        rcases List.mem_flatMap.mp hp with ⟨d, hd, hpd⟩
        rcases List.mem_map.mp hpd with ⟨t, _, rfl⟩
        have hd_ne : d ≠ [] := hne d (by simp [hd])
        have h1 : c.head?.getD 0 < d.head?.getD 0 :=
          hcross d hd _ (headD_mem c hc₀) _ (headD_mem d hd_ne)
        simpa using (ne_of_gt h1)
      rw [hrest]
      simp
    · have hcne : c ≠ [] := hne c (by simp [hc])
      have hkey : c₀.head?.getD 0 ≠ c.head?.getD 0 :=
        ne_of_lt (hcross c hc _ (headD_mem c₀ hc₀) _ (headD_mem c hcne))
      rw [chunkPairs_filter_ne c₀ _ hkey]
      simp only [List.map_nil, List.nil_append]
      exact ih (fun d hd => hne d (by simp [hd])) hpw' c hc

theorem groupGaps_keys (L : List (List Int)) (hne : ∀ c ∈ L, c ≠ [])
    (hcross : L.Pairwise (fun c d => ∀ x ∈ c, ∀ y ∈ d, x < y)) :
    (((L.flatMap chunkPairs).map Prod.fst).dedup).insertionSort (· ≤ ·)
      = L.map (fun c => c.head?.getD 0) := by
  have hmem : ∀ x, x ∈ (L.flatMap chunkPairs).map Prod.fst
      ↔ x ∈ L.map (fun c => c.head?.getD 0) := by
    intro x
    constructor
    · intro hx
      rcases List.mem_map.mp hx with ⟨p, hp, rfl⟩
      rcases List.mem_flatMap.mp hp with ⟨d, hd, hpd⟩
      rcases List.mem_map.mp hpd with ⟨t, _, rfl⟩
      exact List.mem_map.mpr ⟨d, hd, rfl⟩
    · intro hx
      rcases List.mem_map.mp hx with ⟨d, hd, rfl⟩
      exact List.mem_map.mpr ⟨(d.head?.getD 0, d.head?.getD 0),
        List.mem_flatMap.mpr ⟨d, hd,
          List.mem_map.mpr ⟨d.head?.getD 0, headD_mem d (hne d hd), rfl⟩⟩, rfl⟩
  have hheads_lt : List.Sorted (· < ·) (L.map (fun c => c.head?.getD 0)) := by
    rw [List.Sorted, List.pairwise_map]
    exact hcross.imp_of_mem
      (fun {a b} ha hb h => h _ (headD_mem a (hne a ha)) _ (headD_mem b (hne b hb)))
  have hheads_nodup : (L.map (fun c => c.head?.getD 0)).Nodup := hheads_lt.nodup
  have hperm : (((L.flatMap chunkPairs).map Prod.fst).dedup).insertionSort (· ≤ ·)
      |>.Perm (L.map (fun c => c.head?.getD 0)) := by
    refine (List.perm_insertionSort _ _).trans ?_
    refine List.perm_of_nodup_nodup_toFinset_eq (List.nodup_dedup _) hheads_nodup ?_
    ext x
    simp only [List.mem_toFinset, List.mem_dedup]
    exact hmem x
  exact List.eq_of_perm_of_sorted hperm (List.sorted_insertionSort _ _)
    (hheads_lt.imp (fun {a b} => le_of_lt))

theorem groupGaps_flatMap (L : List (List Int)) (hne : ∀ c ∈ L, c ≠ [])
    (hcross : L.Pairwise (fun c d => ∀ x ∈ c, ∀ y ∈ d, x < y)) :
    groupGaps (L.flatMap chunkPairs)
      = L.map (fun c => Gap.mk (aggMinI c) (aggMaxI c) c.length) := by
  rw [groupGaps, groupGaps_keys L hne hcross, List.map_map]
  refine List.map_congr_left ?_
  intro c hc
  have h1 := flatMap_chunkPairs_filter L hne hcross c hc
  show Gap.mk
      (aggMinI (((L.flatMap chunkPairs).filter
        (fun p => decide (p.1 = c.head?.getD 0))).map Prod.snd))
      (aggMaxI (((L.flatMap chunkPairs).filter
        (fun p => decide (p.1 = c.head?.getD 0))).map Prod.snd))
      (((L.flatMap chunkPairs).filter
        (fun p => decide (p.1 = c.head?.getD 0))).map Prod.snd).length
    = Gap.mk (aggMinI c) (aggMaxI c) c.length
  rw [h1]

/-! ### Duplicate-resolver lemmas -/

theorem firstSome_singleton {α : Type} (o : Option α) : firstSome [o] = o := by
  cases o <;> rfl

theorem lastSome_singleton {α : Type} (o : Option α) : lastSome [o] = o := by
  cases o <;> rfl

theorem firstSome_all_none {α : Type} :
    ∀ l : List (Option α), (∀ o ∈ l, o = none) → firstSome l = none := by
  intro l
  induction l with
  | nil => intro _; rfl
  | cons a l ih =>
    intro h
    have ha : a = none := h a (by simp)
    subst ha
    exact ih (fun o ho => h o (by simp [ho]))

theorem lastSome_all_none {α : Type} (l : List (Option α))
    (h : ∀ o ∈ l, o = none) : lastSome l = none :=
  firstSome_all_none l.reverse (fun o ho => h o (List.mem_reverse.mp ho))

theorem filterMap_id_all_none {α : Type} :
    ∀ l : List (Option α), (∀ o ∈ l, o = none) → l.filterMap id = [] := by
  intro l
  induction l with
  | nil => intro _; rfl
  | cons a l ih =>
    intro h
    have ha : a = none := h a (by simp)
    subst ha
    rw [List.filterMap_cons_none rfl]
    exact ih (fun o ho => h o (by simp [ho]))

theorem statFn_all_none (p : Policy) (l : List (Option Rat))
    (hp : p = .mean ∨ p = .median ∨ p = .min ∨ p = .max)
    (h : ∀ o ∈ l, o = none) : statFn p l = none := by
  have h0 : l.filterMap id = [] := filterMap_id_all_none l h
  rcases hp with rfl | rfl | rfl | rfl
  · simp [statFn, meanOpt, h0]
  · simp [statFn, medianOpt, h0]
  · simp [statFn, minOpt, h0]
  · simp [statFn, maxOpt, h0]

theorem getD_map_range {α : Type} (w i : Nat) (g : Nat → α) (d : α) :
    ((List.range w).map g).getD i d = if i < w then g i else d := by
  by_cases h : i < w
  · rw [if_pos h, List.getD_eq_getElem?_getD, List.getElem?_map, List.getElem?_range h]
    rfl
  · rw [if_neg h, List.getD_eq_default]
    rw [List.length_map, List.length_range]
    omega

theorem mem_groupKeys (rows : List Row) (k : Int) :
    k ∈ groupKeys rows ↔ k ∈ rows.map Row.ts :=
  ((List.perm_insertionSort _ _).mem_iff).trans List.mem_dedup

theorem filter_eq_singleton_of_nodup :
    ∀ (l : List Int) (k : Int), l.Nodup → k ∈ l →
      l.filter (fun x => decide (x = k)) = [k] := by
  intro l
  induction l with
  | nil => intro k _ hk; cases hk
  | cons x xs ih =>
    intro k hnd hk
    obtain ⟨hx, hnd'⟩ := List.pairwise_cons.mp hnd
    rcases List.mem_cons.mp hk with rfl | hk
    · rw [List.filter_cons_of_pos (by simp)]
      have hnil : xs.filter (fun y => decide (y = k)) = [] := by
        rw [List.filter_eq_nil_iff]
        intro a ha
        simp only [decide_eq_true_eq]
        exact fun h => hx a ha h.symm
      rw [hnil]
    · have hxk : x ≠ k := hx k hk
      rw [List.filter_cons_of_neg (by simp [hxk])]
      exact ih k hnd' hk

theorem length_eq_one_mem {α : Type} {l : List α} {x : α} (h1 : l.length = 1)
    (hx : x ∈ l) : l = [x] := by
  cases l with
  | nil => cases hx
  | cons a as =>
    have has : as = [] := by
      have : as.length = 0 := by simpa using h1
      exact List.length_eq_zero.mp this
    subst has
    rcases List.mem_singleton.mp hx with rfl
    rfl

theorem resolved_filter_length (p : Policy) (f : Frame) (k : Int)
    (hk : k ∈ f.rows.map Row.ts) :
    ((resolveDuplicates p f).rows.filter (fun r => decide (r.ts = k))).length = 1 := by
  by_cases h : 0 < duplicate_count f.rows
  · rw [show resolveDuplicates p f = groupbyAgg p f from by rw [resolveDuplicates, if_pos h]]
    show (((groupKeys f.rows).map _).filter _).length = 1
    rw [List.filter_map]
    have hcomp : ((fun r => decide (r.ts = k)) ∘ fun x =>
        aggRow p f.numCols.length f.strCols.length (groupOf f.rows x) x)
        = fun x => decide (x = k) := by
      funext x
      simp [Function.comp, aggRow_ts]
    rw [hcomp, filter_eq_singleton_of_nodup _ k (groupKeys_nodup _)
      ((mem_groupKeys _ _).mpr hk)]
    rfl
  · rw [show resolveDuplicates p f = f from by rw [resolveDuplicates, if_neg h]]
    have hnd := dup_zero_nodup (Nat.eq_zero_of_not_pos h)
    have h1 := filter_eq_singleton_of_nodup _ k hnd hk
    rw [List.filter_map] at h1
    have h2 := congrArg List.length h1
    rw [List.length_map] at h2
    exact h2

theorem colVals_all_none (grp : List Row) (w i : Nat)
    (hgrp : ∀ r' ∈ grp, r'.nums.length = w) (h : ¬ i < w) :
    ∀ o ∈ colVals grp i, o = none := by
  intro o ho
  rcases List.mem_map.mp ho with ⟨r', hr', rfl⟩
  apply List.getD_eq_default
  have := hgrp r' hr'
  omega

/-! ## Claim theorems -/

/-- C3: for every nonempty resolved series and positive interval, the grid
built from the series minimum to the series maximum has length exactly
`floor ((max - min) / interval) + 1`, and the summary's `expected_points`
is exactly that grid length. -/
theorem grid_length_floor_div (ts : List Int) (interval : Int)
    (hne : ts ≠ []) (hpos : 0 < interval) :
    ∃ lo hi, seriesMin ts = some lo ∧ seriesMax ts = some hi ∧ lo ≤ hi ∧
      (date_range lo hi interval).length = ((hi - lo) / interval).toNat + 1 ∧
      ∀ resolved : List Int,
        (summaryOf resolved (date_range lo hi interval)).expected_points
          = (date_range lo hi interval).length := by
  match ts, hne with
  | x :: xs, _ =>
    have hle : xs.foldl Min.min x ≤ xs.foldl Max.max x :=
      le_trans (foldl_min_le xs x) (le_foldl_max xs x)
    refine ⟨xs.foldl Min.min x, xs.foldl Max.max x, rfl, rfl, hle, ?_, fun _ => rfl⟩
    rw [date_range, if_pos ⟨hpos, hle⟩, List.length_map, List.length_range,
      toNat_ediv_eq (sub_nonneg.mpr hle) hpos.le]

/-- Witness for C3 at the series `[0, 10]` with interval `5`. -/
theorem grid_length_floor_div_witness :
    (([0, 10] : List Int) ≠ []) ∧ ((0 : Int) < 5) ∧
      (∃ lo hi, seriesMin [0, 10] = some lo ∧ seriesMax [0, 10] = some hi ∧ lo ≤ hi ∧
        (date_range lo hi 5).length = ((hi - lo) / 5).toNat + 1 ∧
        ∀ resolved : List Int,
          (summaryOf resolved (date_range lo hi 5)).expected_points
            = (date_range lo hi 5).length) :=
  ⟨by decide, by decide, grid_length_floor_div [0, 10] 5 (by decide) (by decide)⟩

/-- C6: the summary metrics satisfy `actual_points = ` number of distinct
resolved timestamps, `expected_points = ` grid length, `missing_points =
expected_points - actual_points` (so `missing_points + actual_points =
expected_points`), and `availability_pct = round (100 * actual_points /
expected_points) ` to two decimals, with value `0` when `expected_points`
is `0`. -/
theorem summary_metrics (ts grid : List Int) :
    (summaryOf ts grid).actual_points = ts.toFinset.card ∧
    (summaryOf ts grid).expected_points = grid.length ∧
    (summaryOf ts grid).missing_points =
      ((summaryOf ts grid).expected_points : Int)
        - ((summaryOf ts grid).actual_points : Int) ∧
    (summaryOf ts grid).missing_points + ((summaryOf ts grid).actual_points : Int)
      = ((summaryOf ts grid).expected_points : Int) ∧
    (summaryOf ts grid).availability_pct =
      (if 0 < (summaryOf ts grid).expected_points then
        pyRound2 (100 * ((summaryOf ts grid).actual_points : Rat)
          / ((summaryOf ts grid).expected_points : Rat))
      else 0) := by
  refine ⟨(List.card_toFinset ts).symm, rfl, rfl, Int.sub_add_cancel _ _, ?_⟩
  simp only [summaryOf]
  split
  · congr 1
    ring
  · rfl

/-- C9: the Gap Detector & Grouper is deterministic — two runs on equal
grids, equal resolved timestamp sets and equal intervals produce equal gap
sequences. -/
theorem gap_detector_deterministic (grid₁ grid₂ res₁ res₂ : List Int)
    (i₁ i₂ : Int) (hg : grid₁ = grid₂) (hr : res₁ = res₂) (hi : i₁ = i₂) :
    gapsOf i₁ (indexDifference grid₁ res₁) = gapsOf i₂ (indexDifference grid₂ res₂) := by
  subst hg
  subst hr
  subst hi
  rfl

/-- Witness for C9 at a concrete pair of identical runs. -/
theorem gap_detector_deterministic_witness :
    gapsOf 5 (indexDifference [0, 5, 10] [0]) = gapsOf 5 (indexDifference [0, 5, 10] [0]) :=
  gap_detector_deterministic [0, 5, 10] [0, 5, 10] [0] [0] 5 5 rfl rfl rfl

/-- C2 (amended): when zero valid rows remain after timestamp parsing, the
pipeline does fail and computes no grid and no summary — but it fails
inside the Grid Builder itself, where `pd.date_range` raises `ValueError`
on its `NaT` bounds; there is no `EmptyDatasetError` raised before the
Grid Builder and no "no valid timestamps" message. -/
theorem empty_series_fails_inside_grid_builder (raw : RawFrame) (p : Policy)
    (interval : Int) (h : normalizeRows raw.rows = []) :
    analyze raw p interval = .error "ValueError: Neither start nor end can be NaT" := by
  simp [analyze, h, resolveDuplicates, duplicate_count, seriesMin, seriesMax, pd_date_range]

/-- Witness for the amended C2 at a one-row table whose timestamp does not
parse. -/
theorem empty_series_fails_inside_grid_builder_witness :
    normalizeRows (RawFrame.mk ["v"] [] [⟨none, [some 1], []⟩]).rows = [] ∧
      analyze (RawFrame.mk ["v"] [] [⟨none, [some 1], []⟩]) .mean 5
        = .error "ValueError: Neither start nor end can be NaT" :=
  ⟨rfl, empty_series_fails_inside_grid_builder _ .mean 5 rfl⟩

/-- C2 fails as stated: on an upload whose only timestamp cell is
unparseable, the pass ends with the pandas `ValueError` escaping from
`pd.date_range`, not with an `EmptyDatasetError` telling the user that no
valid timestamps were found. -/
theorem empty_series_no_emptydataseterror :
    analyze (RawFrame.mk ["v"] [] [⟨none, [some 1], []⟩]) .mean 5
        = .error "ValueError: Neither start nor end can be NaT" ∧
      "ValueError: Neither start nor end can be NaT"
        ≠ "EmptyDatasetError: no valid timestamps were found" :=
  ⟨rfl, by decide⟩

/-- C10: with resolved timestamps `0, 3, 5` at interval `5`, the timestamp
`3` is off the grid `[0, 5]`: `actual_points` counts it, so
`missing_points = -1` is negative and differs from the number of missing
grid entries (`0`), and the availability percentage is `150 > 100`. -/
theorem off_grid_point_breaks_missing_points :
    ∃ a : Analysis,
      analyze (RawFrame.mk [] [] [⟨some 0, [], []⟩, ⟨some 3, [], []⟩, ⟨some 5, [], []⟩])
          .mean 5 = Except.ok a ∧
      a.resolved.rows.map Row.ts = [0, 3, 5] ∧
      a.full_range = [0, 5] ∧
      a.missing = [] ∧
      a.summary.missing_points = -1 ∧
      a.summary.missing_points < 0 ∧
      a.summary.missing_points ≠ (a.missing.length : Int) ∧
      a.summary.availability_pct = 150 ∧
      (100 : Rat) < a.summary.availability_pct := by
  refine ⟨_, rfl, by decide, by decide, by decide, by decide, by decide, by decide, ?_, ?_⟩
  · show (summaryOf [0, 3, 5] [0, 5]).availability_pct = 150
    norm_num [summaryOf, pyRound2, pyRoundInt, List.dedup]
  · show (100 : Rat) < (summaryOf [0, 3, 5] [0, 5]).availability_pct
    norm_num [summaryOf, pyRound2, pyRoundInt, List.dedup]

/-- C7: the Duplicate Resolver returns its input unchanged when there are
no duplicate timestamps, and applying it twice always equals applying it
once. -/
theorem resolver_noop_and_idempotent (p : Policy) (f : Frame) :
    (duplicate_count f.rows = 0 → resolveDuplicates p f = f) ∧
    resolveDuplicates p (resolveDuplicates p f) = resolveDuplicates p f := by
  constructor
  · intro h
    simp [resolveDuplicates, h]
  · by_cases h : 0 < duplicate_count f.rows
    · have h1 : resolveDuplicates p f = groupbyAgg p f := by
        rw [resolveDuplicates, if_pos h]
      rw [h1, resolveDuplicates, if_neg]
      rw [duplicate_count_groupbyAgg]
      exact lt_irrefl 0
    · have h1 : resolveDuplicates p f = f := by rw [resolveDuplicates, if_neg h]
      rw [h1]
      exact h1

/-- Witness for C7 at a duplicate-free one-row frame under policy Mean. -/
theorem resolver_noop_and_idempotent_witness :
    duplicate_count (Frame.mk [] [] [⟨0, [], []⟩]).rows = 0 ∧
      resolveDuplicates .mean (Frame.mk [] [] [⟨0, [], []⟩]) = Frame.mk [] [] [⟨0, [], []⟩] :=
  ⟨by decide, (resolver_noop_and_idempotent .mean (Frame.mk [] [] [⟨0, [], []⟩])).1 (by decide)⟩

/-- C8: after the Timestamp Normalizer and the Duplicate Resolver, the
resolved timestamps are strictly increasing (sorted ascending with no
duplicates), and every downstream stage of a successful pass — grid
difference, summary, gap grouping — is computed from exactly that resolved
series. -/
theorem resolved_series_strictly_increasing (raw : RawFrame) (p : Policy) :
    List.Chain' (· < ·)
      ((resolveDuplicates p (Frame.mk raw.numCols raw.strCols (normalizeRows raw.rows))).rows.map
        Row.ts) ∧
    ∀ (interval : Int) (a : Analysis), analyze raw p interval = Except.ok a →
      a.resolved = resolveDuplicates p (Frame.mk raw.numCols raw.strCols (normalizeRows raw.rows)) ∧
      a.missing = indexDifference a.full_range (a.resolved.rows.map Row.ts) ∧
      a.summary = summaryOf (a.resolved.rows.map Row.ts) a.full_range ∧
      a.gaps = gapsOf interval a.missing := by
  constructor
  · rw [List.chain'_iff_pairwise]
    by_cases h : 0 < duplicate_count (normalizeRows raw.rows)
    · rw [show resolveDuplicates p (Frame.mk raw.numCols raw.strCols (normalizeRows raw.rows))
          = groupbyAgg p (Frame.mk raw.numCols raw.strCols (normalizeRows raw.rows)) from by
        rw [resolveDuplicates, if_pos h]]
      rw [groupbyAgg_map_ts]
      exact groupKeys_sorted_lt _
    · rw [show resolveDuplicates p (Frame.mk raw.numCols raw.strCols (normalizeRows raw.rows))
          = Frame.mk raw.numCols raw.strCols (normalizeRows raw.rows) from by
        rw [resolveDuplicates, if_neg h]]
      have hnodup : ((normalizeRows raw.rows).map Row.ts).Nodup :=
        dup_zero_nodup (Nat.eq_zero_of_not_pos h)
      have hsorted : List.Sorted (· ≤ ·) ((normalizeRows raw.rows).map Row.ts) := by
        rw [List.Sorted, List.pairwise_map]
        exact List.sorted_insertionSort (fun a b : Row => a.ts ≤ b.ts) _
      exact hsorted.lt_of_le hnodup
  · intro interval a ha
    cases hdr : pd_date_range
        (seriesMin ((resolveDuplicates p
          (Frame.mk raw.numCols raw.strCols (normalizeRows raw.rows))).rows.map Row.ts))
        (seriesMax ((resolveDuplicates p
          (Frame.mk raw.numCols raw.strCols (normalizeRows raw.rows))).rows.map Row.ts))
        interval with
    | error e => rw [analyze] at ha; rw [hdr] at ha; exact absurd ha (by simp)
    | ok fr =>
      rw [analyze] at ha
      rw [hdr] at ha
      cases ha
      exact ⟨rfl, rfl, rfl, rfl⟩

/-- Witness for C8 at a one-row upload under policy Mean, interval 5. -/
theorem resolved_series_strictly_increasing_witness :
    List.Chain' (· < ·)
      ((resolveDuplicates .mean
        (Frame.mk [] [] (normalizeRows [RawRow.mk (some 0) [] []]))).rows.map Row.ts) ∧
    ∃ a : Analysis, analyze (RawFrame.mk [] [] [RawRow.mk (some 0) [] []]) .mean 5 = Except.ok a ∧
      a.missing = indexDifference a.full_range (a.resolved.rows.map Row.ts) :=
  ⟨(resolved_series_strictly_increasing (RawFrame.mk [] [] [RawRow.mk (some 0) [] []]) .mean).1,
    ⟨_, rfl,
      (((resolved_series_strictly_increasing
        (RawFrame.mk [] [] [RawRow.mk (some 0) [] []]) .mean).2 5 _ rfl).2).1⟩⟩

/-- C1: on every strictly ascending missing sequence (as produced by the
grid set-difference) the fill-forward gap grouper agrees with the linear
scan that starts a new gap exactly when the step from the previous missing
timestamp is not one interval — so gaps are exactly the maximal
interval-spaced runs; in particular the grid `[0,5,10,15,20]` with
resolved `{0, 20}` yields the single gap `(5, 15, 3)`, and the grid
`[0,5,...,40]` with resolved `{0, 5, 20, 40}` yields exactly two gaps. -/
theorem gaps_are_maximal_runs :
    (∀ (interval : Int) (missing : List Int), List.Chain' (· < ·) missing →
      gapsOf interval missing = specGaps interval missing) ∧
    gapsOf 5 (indexDifference (date_range 0 20 5) [0, 20]) = [⟨5, 15, 3⟩] ∧
    gapsOf 5 (indexDifference (date_range 0 40 5) [0, 5, 20, 40])
      = [⟨10, 15, 2⟩, ⟨25, 35, 3⟩] := by
  refine ⟨?_, by decide, by decide⟩
  intro interval ms hms
  have hpw := List.chain'_iff_pairwise.mp hms
  have hflat : (runs interval ms).flatten = ms := runs_flatten interval ms
  obtain ⟨hin, hcross⟩ := List.pairwise_flatten.mp (by rw [hflat]; exact hpw)
  have hne : ∀ c ∈ runs interval ms, c ≠ [] := runs_ne_nil interval ms
  rw [gapsOf, labelledMissing_eq_runs, groupGaps_flatMap _ hne hcross, specGaps_eq_runs]
  refine List.map_congr_left ?_
  intro c hc
  rw [aggMinI_of_sorted c (hne c hc) (hin c hc),
    aggMaxI_of_sorted c (hne c hc)
      (List.chain'_iff_pairwise.mpr ((hin c hc).imp (fun {a b} => le_of_lt)))]

/-- Witness for C1 at the ascending missing sequence `[5, 10, 15]` and
interval `5`. -/
theorem gaps_are_maximal_runs_witness :
    List.Chain' (· < ·) ([5, 10, 15] : List Int) ∧
      gapsOf 5 [5, 10, 15] = specGaps 5 [5, 10, 15] :=
  ⟨by norm_num [List.chain'_cons],
    gaps_are_maximal_runs.1 5 [5, 10, 15] (by norm_num [List.chain'_cons])⟩

/-- C4 fails as stated: pandas `GroupBy.first` takes the first non-null
value per column, not the first row.  With two rows sharing timestamp `0`
where the first row's numeric cell is NaN, Keep First returns the second
row's value `5` combined with the first row's string cell — a row that is
not the first row of the group. -/
theorem keepFirst_not_first_row :
    (resolveDuplicates .keepFirst
        (Frame.mk ["a"] ["b"] [⟨0, [none], [some "x"]⟩, ⟨0, [some 5], [some "y"]⟩])).rows
      = [⟨0, [some 5], [some "x"]⟩] ∧
    (Frame.mk ["a"] ["b"] [⟨0, [none], [some "x"]⟩, ⟨0, [some 5], [some "y"]⟩]).rows.head?
      = some ⟨0, [none], [some "x"]⟩ ∧
    ([⟨0, [some 5], [some "x"]⟩] : List Row) ≠ [⟨0, [none], [some "x"]⟩] := by
  refine ⟨by decide, rfl, by decide⟩

/-- C4 (amended): under Keep First (resp. Keep Last) the resolver emits
exactly one row per duplicated timestamp, and each cell of that row —
numeric and non-numeric alike, the non-numeric columns passing through
rather than being dropped — is the first (resp. last) non-null value of
its column within the group in sort order (which is the first (resp. last)
row's value whenever that cell is non-null, but not in general). -/
theorem keepFirst_keepLast_first_last_non_null (f : Frame) (k : Int)
    (hw : ∀ r ∈ f.rows, r.nums.length = f.numCols.length)
    (hs : ∀ r ∈ f.rows, r.strs.length = f.strCols.length)
    (hk : k ∈ f.rows.map Row.ts) :
    ((resolveDuplicates .keepFirst f).numCols = f.numCols ∧
      (resolveDuplicates .keepFirst f).strCols = f.strCols ∧
      ((resolveDuplicates .keepFirst f).rows.filter (fun r => decide (r.ts = k))).length = 1 ∧
      ∀ r ∈ (resolveDuplicates .keepFirst f).rows, r.ts = k →
        (∀ i, r.nums.getD i none = firstSome (colVals (groupOf f.rows k) i)) ∧
        (∀ i, r.strs.getD i none = firstSome (strVals (groupOf f.rows k) i))) ∧
    ((resolveDuplicates .keepLast f).numCols = f.numCols ∧
      (resolveDuplicates .keepLast f).strCols = f.strCols ∧
      ((resolveDuplicates .keepLast f).rows.filter (fun r => decide (r.ts = k))).length = 1 ∧
      ∀ r ∈ (resolveDuplicates .keepLast f).rows, r.ts = k →
        (∀ i, r.nums.getD i none = lastSome (colVals (groupOf f.rows k) i)) ∧
        (∀ i, r.strs.getD i none = lastSome (strVals (groupOf f.rows k) i))) := by
  have hcols : ∀ q : Policy, q = .keepFirst ∨ q = .keepLast →
      (resolveDuplicates q f).numCols = f.numCols ∧
      (resolveDuplicates q f).strCols = f.strCols := by
    intro q hq
    rw [resolveDuplicates]
    split
    · rcases hq with rfl | rfl <;> exact ⟨rfl, rfl⟩
    · exact ⟨rfl, rfl⟩
  constructor
  · refine ⟨(hcols _ (Or.inl rfl)).1, (hcols _ (Or.inl rfl)).2,
      resolved_filter_length _ f k hk, ?_⟩
    intro r hr hts
    by_cases h : 0 < duplicate_count f.rows
    · rw [show resolveDuplicates .keepFirst f = groupbyAgg .keepFirst f from by
        rw [resolveDuplicates, if_pos h]] at hr
      rcases List.mem_map.mp hr with ⟨k', _, rfl⟩
      rw [aggRow_ts] at hts
      subst hts
      constructor
      · intro i
        show ((List.range f.numCols.length).map
          (fun i => firstSome (colVals (groupOf f.rows k') i))).getD i none = _
        rw [getD_map_range]
        split
        · rfl
        · symm
          apply firstSome_all_none
          intro o ho
          rcases List.mem_map.mp ho with ⟨r', hr', rfl⟩
          have hw' := hw r' (List.mem_filter.mp hr').1
          apply List.getD_eq_default
          omega
      · intro i
        show ((List.range f.strCols.length).map
          (fun i => firstSome (strVals (groupOf f.rows k') i))).getD i none = _
        rw [getD_map_range]
        split
        · rfl
        · symm
          apply firstSome_all_none
          intro o ho
          rcases List.mem_map.mp ho with ⟨r', hr', rfl⟩
          have hs' := hs r' (List.mem_filter.mp hr').1
          apply List.getD_eq_default
          omega
    · have hres : resolveDuplicates .keepFirst f = f := by rw [resolveDuplicates, if_neg h]
      have hone := resolved_filter_length .keepFirst f k hk
      rw [hres] at hr hone
      have hrf : r ∈ f.rows.filter (fun r => decide (r.ts = k)) :=
        List.mem_filter.mpr ⟨hr, by simp [hts]⟩
      have hgrp : groupOf f.rows k = [r] := length_eq_one_mem hone hrf
      rw [hgrp]
      exact ⟨fun i => (firstSome_singleton _).symm, fun i => (firstSome_singleton _).symm⟩
  · refine ⟨(hcols _ (Or.inr rfl)).1, (hcols _ (Or.inr rfl)).2,
      resolved_filter_length _ f k hk, ?_⟩
    intro r hr hts
    by_cases h : 0 < duplicate_count f.rows
    · rw [show resolveDuplicates .keepLast f = groupbyAgg .keepLast f from by
        rw [resolveDuplicates, if_pos h]] at hr
      rcases List.mem_map.mp hr with ⟨k', _, rfl⟩
      rw [aggRow_ts] at hts
      subst hts
      constructor
      · intro i
        show ((List.range f.numCols.length).map
          (fun i => lastSome (colVals (groupOf f.rows k') i))).getD i none = _
        rw [getD_map_range]
        split
        · rfl
        · symm
          apply lastSome_all_none
          intro o ho
          rcases List.mem_map.mp ho with ⟨r', hr', rfl⟩
          have hw' := hw r' (List.mem_filter.mp hr').1
          apply List.getD_eq_default
          omega
      · intro i
        show ((List.range f.strCols.length).map
          (fun i => lastSome (strVals (groupOf f.rows k') i))).getD i none = _
        rw [getD_map_range]
        split
        · rfl
        · symm
          apply lastSome_all_none
          intro o ho
          rcases List.mem_map.mp ho with ⟨r', hr', rfl⟩
          have hs' := hs r' (List.mem_filter.mp hr').1
          apply List.getD_eq_default
          omega
    · have hres : resolveDuplicates .keepLast f = f := by rw [resolveDuplicates, if_neg h]
      have hone := resolved_filter_length .keepLast f k hk
      rw [hres] at hr hone
      have hrf : r ∈ f.rows.filter (fun r => decide (r.ts = k)) :=
        List.mem_filter.mpr ⟨hr, by simp [hts]⟩
      have hgrp : groupOf f.rows k = [r] := length_eq_one_mem hone hrf
      rw [hgrp]
      exact ⟨fun i => (lastSome_singleton _).symm, fun i => (lastSome_singleton _).symm⟩

/-- Witness for the amended C4 at the counterexample frame and key `0`. -/
theorem keepFirst_keepLast_first_last_non_null_witness :
    (resolveDuplicates .keepFirst
        (Frame.mk ["a"] ["b"] [⟨0, [none], [some "x"]⟩, ⟨0, [some 5], [some "y"]⟩])).numCols
      = ["a"] :=
  (keepFirst_keepLast_first_last_non_null
    (Frame.mk ["a"] ["b"] [⟨0, [none], [some "x"]⟩, ⟨0, [some 5], [some "y"]⟩]) 0
    (by decide) (by decide) (by decide)).1.1

/-- C5: when duplicates are present, the numeric policies Mean, Median,
Min and Max aggregate every numeric column of each timestamp group with
that statistic (over the group's non-null values, as pandas does) and drop
every non-numeric column, so only the timestamp and the aggregated numeric
columns survive; in particular two rows sharing a timestamp with values
`10` and `20` resolve under Mean to a single row with value `15`. -/
theorem numeric_policies_aggregate_and_drop_strings (p : Policy) (f : Frame) (k : Int)
    (hp : p = .mean ∨ p = .median ∨ p = .min ∨ p = .max)
    (hdup : 0 < duplicate_count f.rows)
    (hw : ∀ r ∈ f.rows, r.nums.length = f.numCols.length)
    (hk : k ∈ f.rows.map Row.ts) :
    (resolveDuplicates p f).numCols = f.numCols ∧
    (resolveDuplicates p f).strCols = [] ∧
    ((resolveDuplicates p f).rows.filter (fun r => decide (r.ts = k))).length = 1 ∧
    (∀ r ∈ (resolveDuplicates p f).rows, r.ts = k →
      r.strs = [] ∧
      ∀ i, r.nums.getD i none = statFn p (colVals (groupOf f.rows k) i)) ∧
    (resolveDuplicates .mean
        (Frame.mk ["v"] [] [⟨0, [some 10], []⟩, ⟨0, [some 20], []⟩])).rows
      = [⟨0, [some 15], []⟩] := by
  have hres : resolveDuplicates p f = groupbyAgg p f := by
    rw [resolveDuplicates, if_pos hdup]
  refine ⟨by rw [hres]; rfl, ?_, resolved_filter_length p f k hk, ?_, ?_⟩
  · rw [hres]
    rcases hp with rfl | rfl | rfl | rfl <;> rfl
  · intro r hr hts
    rw [hres] at hr
    rcases List.mem_map.mp hr with ⟨q, _, rfl⟩
    rw [aggRow_ts] at hts
    subst hts
    have hwidth : ∀ r' ∈ groupOf f.rows q, r'.nums.length = f.numCols.length :=
      fun r' hr' => hw r' (List.mem_filter.mp hr').1
    rcases hp with rfl | rfl | rfl | rfl
    · refine ⟨rfl, fun i => ?_⟩
      show ((List.range f.numCols.length).map
        (fun i => meanOpt (colVals (groupOf f.rows q) i))).getD i none
        = statFn .mean (colVals (groupOf f.rows q) i)
      rw [getD_map_range]
      by_cases hlt : i < f.numCols.length
      · rw [if_pos hlt]
        rfl
      · rw [if_neg hlt]
        symm
        exact statFn_all_none _ _ (Or.inl rfl)
          (colVals_all_none _ _ i hwidth hlt)
    · refine ⟨rfl, fun i => ?_⟩
      show ((List.range f.numCols.length).map
        (fun i => medianOpt (colVals (groupOf f.rows q) i))).getD i none
        = statFn .median (colVals (groupOf f.rows q) i)
      rw [getD_map_range]
      by_cases hlt : i < f.numCols.length
      · rw [if_pos hlt]
        rfl
      · rw [if_neg hlt]
        symm
        exact statFn_all_none _ _ (Or.inr (Or.inl rfl))
          (colVals_all_none _ _ i hwidth hlt)
    · refine ⟨rfl, fun i => ?_⟩
      show ((List.range f.numCols.length).map
        (fun i => minOpt (colVals (groupOf f.rows q) i))).getD i none
        = statFn .min (colVals (groupOf f.rows q) i)
      rw [getD_map_range]
      by_cases hlt : i < f.numCols.length
      · rw [if_pos hlt]
        rfl
      · rw [if_neg hlt]
        symm
        exact statFn_all_none _ _ (Or.inr (Or.inr (Or.inl rfl)))
          (colVals_all_none _ _ i hwidth hlt)
    · refine ⟨rfl, fun i => ?_⟩
      show ((List.range f.numCols.length).map
        (fun i => maxOpt (colVals (groupOf f.rows q) i))).getD i none
        = statFn .max (colVals (groupOf f.rows q) i)
      rw [getD_map_range]
      by_cases hlt : i < f.numCols.length
      · rw [if_pos hlt]
        rfl
      · rw [if_neg hlt]
        symm
        exact statFn_all_none _ _ (Or.inr (Or.inr (Or.inr rfl)))
          (colVals_all_none _ _ i hwidth hlt)
  · norm_num [resolveDuplicates, duplicate_count, groupbyAgg, groupKeys, groupOf, aggRow,
      colVals, meanOpt, List.dedup, List.insertionSort, List.orderedInsert, List.filterMap,
      List.range_succ, List.getD]

/-- Witness for C5 at the two-row Mean example, key `0`. -/
theorem numeric_policies_aggregate_and_drop_strings_witness :
    (resolveDuplicates .mean
        (Frame.mk ["v"] [] [⟨0, [some 10], []⟩, ⟨0, [some 20], []⟩])).strCols = [] :=
  (numeric_policies_aggregate_and_drop_strings .mean
    (Frame.mk ["v"] [] [⟨0, [some 10], []⟩, ⟨0, [some 20], []⟩]) 0
    (Or.inl rfl) (by decide) (by decide) (by decide)).2.1

end MissingData
